import Mathlib

/-!
Verification of the `frt` concurrency toolkit (`src/frt.h`), a thin C++
wrapper over a tick-based real-time kernel (FreeRTOS).  The wrapper code is
embedded shallowly below; the kernel primitives it calls (task delay, queue
send/receive, semaphore take/give, task notification) are external services
and are modelled as explicit state-passing functions following the kernel
ABI the toolkit consumes (bounded FIFO queue, counting semaphore with a
fixed maximum, per-task notification counter, and interrupt-context variants
that report a "higher-priority task woken" flag).

Conventions:
* `unsigned int` arithmetic wraps at `UINT_MOD`; the wrap is written
  explicitly (`% UINT_MOD`) at the one place the source can overflow
  (`msecs += remainder`).
* Millisecond-to-tick conversion is Nat division by the tick period
  `portTICK_PERIOD_MS`, exactly as in the source (`msecs / portTICK_PERIOD_MS`).
* A blocking kernel call with a nonzero timeout is represented by the
  `TimedResult.blocked` constructor; its eventual boolean outcome, which
  depends on other contexts, is resolved by an explicit `late` parameter
  where a wrapper branches on the call's result.
-/

namespace Frt

/-- Modulus of C `unsigned int` (32-bit ports). -/
def UINT_MOD : Nat := 2 ^ 32

/-- Result of `static_cast<UBaseType_t>(-1)`: the largest representable
semaphore count (32-bit ports). -/
def UBASE_MAX : Nat := 2 ^ 32 - 1

/-- What a call to `Task::msleep` does: either a kernel delay of a whole
number of ticks (`vTaskDelay(ticks)`) or a single cooperative yield
(`taskYIELD()`). -/
inductive SleepAction where
  | delay (ticks : Nat)
  | yield
deriving DecidableEq, Repr

/-- Number of whole ticks the kernel is asked to delay by a `SleepAction`
(a yield schedules no delay). -/
def scheduledTicks : SleepAction → Nat
  | .delay t => t
  | .yield => 0

/-- `Task::msleep(unsigned int msecs)` (src/frt.h:154-163): convert `msecs`
to whole ticks; delay that many ticks if nonzero, otherwise yield once.
`P` is `portTICK_PERIOD_MS`. -/
def msleep (P msecs : Nat) : SleepAction :=
  let ticks := msecs / P
  if ticks ≠ 0 then .delay ticks else .yield

/-- `Task::msleep(unsigned int msecs, unsigned int& remainder)`
(src/frt.h:165-176): add the carried remainder (unsigned wrap), convert to
whole ticks, store the new remainder, then delay or yield as in `msleep`.
Returns the action together with the updated remainder. -/
def msleepRem (P msecs remainder : Nat) : SleepAction × Nat :=
  let m := (msecs + remainder) % UINT_MOD
  let ticks := m / P
  let r := m % P
  (if ticks ≠ 0 then .delay ticks else .yield, r)

/-- `N` successive calls of the remainder-tracking `msleep`, each requesting
the same `msecs`, threading the caller-owned remainder accumulator.  Returns
the total number of scheduled whole ticks and the final remainder. -/
def msleepRepeat (P msecs : Nat) : Nat → Nat → Nat × Nat
  | 0, r => (0, r)
  | n + 1, r =>
      let step := msleepRem P msecs r
      let rest := msleepRepeat P msecs n step.2
      (scheduledTicks step.1 + rest.1, rest.2)

theorem msleepRem_snd (P msecs r : Nat) (h : msecs + r < UINT_MOD) :
    (msleepRem P msecs r).2 = (msecs + r) % P := by
  simp [msleepRem, Nat.mod_eq_of_lt h]

theorem msleepRem_ticks (P msecs r : Nat) (h : msecs + r < UINT_MOD) :
    scheduledTicks (msleepRem P msecs r).1 = (msecs + r) / P := by
  unfold msleepRem
  rw [Nat.mod_eq_of_lt h]
  by_cases hz : (msecs + r) / P = 0 <;> simp [hz, scheduledTicks]

/-- Accounting invariant of the repeated remainder-tracking sleep: total
scheduled delay (in ms) plus the final remainder equals the total requested
time plus the initial remainder, and the final remainder stays below the
tick period. -/
theorem msleepRepeat_invariant (P msecs : Nat) (hP : 0 < P)
    (hov : msecs + P ≤ UINT_MOD) :
    ∀ N r, r < P →
      (msleepRepeat P msecs N r).1 * P + (msleepRepeat P msecs N r).2 =
        N * msecs + r ∧ (msleepRepeat P msecs N r).2 < P := by
  intro N
  induction N with
  | zero => intro r hr; simpa [msleepRepeat] using hr
  | succ n ih =>
      intro r hr
      have hlt : msecs + r < UINT_MOD :=
        lt_of_lt_of_le (by omega) hov
      have hsnd := msleepRem_snd P msecs r hlt
      have htick := msleepRem_ticks P msecs r hlt
      obtain ⟨ihEq, ihLt⟩ := ih ((msecs + r) % P) (Nat.mod_lt _ hP)
      have h0 : msleepRepeat P msecs (n + 1) r =
          (scheduledTicks (msleepRem P msecs r).1 +
            (msleepRepeat P msecs n (msleepRem P msecs r).2).1,
           (msleepRepeat P msecs n (msleepRem P msecs r).2).2) := rfl
      rw [h0, hsnd]
      dsimp only
      refine ⟨?_, ihLt⟩
      rw [htick]
      have hdm : (msecs + r) / P * P + (msecs + r) % P = msecs + r := by
        rw [Nat.mul_comm]; exact Nat.div_add_mod _ _
      calc ((msecs + r) / P + (msleepRepeat P msecs n ((msecs + r) % P)).1) * P +
            (msleepRepeat P msecs n ((msecs + r) % P)).2
          = (msecs + r) / P * P +
            ((msleepRepeat P msecs n ((msecs + r) % P)).1 * P +
              (msleepRepeat P msecs n ((msecs + r) % P)).2) := by ring
        _ = (msecs + r) / P * P + (n * msecs + (msecs + r) % P) := by rw [ihEq]
        _ = ((msecs + r) / P * P + (msecs + r) % P) + n * msecs := by ring
        _ = (msecs + r) + n * msecs := by rw [hdm]
        _ = (n + 1) * msecs + r := by ring

/-- C1.  The remainder-tracking `msleep`: each call schedules
`(msecs + remainder) / tickPeriod` whole ticks of delay and leaves the
accumulator at `(msecs + remainder) % tickPeriod`; consequently, over any
`N` successive calls requesting the same period `msecs` starting from a
zero accumulator, the cumulative scheduled delay equals `N * msecs` minus
the final remainder and is therefore within one tick period of
`N * msecs` (no unbounded drift). -/
theorem C1_msleepRem_no_drift (P : Nat) (hP : 0 < P) :
    (∀ msecs r, msecs + r < UINT_MOD →
      scheduledTicks (msleepRem P msecs r).1 = (msecs + r) / P ∧
      (msleepRem P msecs r).2 = (msecs + r) % P) ∧
    (∀ msecs N, msecs + P ≤ UINT_MOD →
      (msleepRepeat P msecs N 0).1 * P =
        N * msecs - (msleepRepeat P msecs N 0).2 ∧
      (msleepRepeat P msecs N 0).2 < P ∧
      N * msecs - (msleepRepeat P msecs N 0).1 * P < P) := by
  refine ⟨fun msecs r h => ⟨msleepRem_ticks P msecs r h, msleepRem_snd P msecs r h⟩,
    fun msecs N hov => ?_⟩
  obtain ⟨hEq, hLt⟩ := msleepRepeat_invariant P msecs hP hov N 0 hP
  omega

/-- Witness for C1 at `tickPeriod = 16`, `msecs = 25`, `remainder = 3`,
`N = 4`. -/
theorem C1_witness :
    (0 < 16 ∧ 25 + 3 < UINT_MOD ∧ 25 + 16 ≤ UINT_MOD) ∧
    scheduledTicks (msleepRem 16 25 3).1 = (25 + 3) / 16 ∧
    (msleepRepeat 16 25 4 0).1 * 16 = 4 * 25 - (msleepRepeat 16 25 4 0).2 := by
  have h1 : (0 : Nat) < 16 := by decide
  have h2 : 25 + 3 < UINT_MOD := by decide
  have h3 : 25 + 16 ≤ UINT_MOD := by decide
  exact ⟨⟨h1, h2, h3⟩, ((C1_msleepRem_no_drift 16 h1).1 25 3 h2).1,
    ((C1_msleepRem_no_drift 16 h1).2 25 4 h3).1⟩

/-- C2.  `msleep` and its remainder-tracking twin: when the millisecond
request converts to zero whole ticks, the call is a single cooperative
yield (no kernel delay); when it converts to at least one tick, the call is
a kernel delay of exactly that tick count (no yield). -/
theorem C2_msleep_subtick_yield (P : Nat) (hPW : P ≤ UINT_MOD) :
    (∀ msecs, msecs < P → msleep P msecs = .yield) ∧
    (∀ msecs, P ≤ msecs → 0 < P → msleep P msecs = .delay (msecs / P)) ∧
    (∀ msecs r, msecs + r < P → (msleepRem P msecs r).1 = .yield) ∧
    (∀ msecs r, P ≤ msecs + r → msecs + r < UINT_MOD → 0 < P →
      (msleepRem P msecs r).1 = .delay ((msecs + r) / P)) := by
  refine ⟨fun msecs h => ?_, fun msecs h hP => ?_, fun msecs r h => ?_,
    fun msecs r h hov hP => ?_⟩
  · simp [msleep, Nat.div_eq_of_lt h]
  · have : msecs / P ≠ 0 := by
      have := Nat.one_le_div_iff hP |>.mpr h
      omega
    simp [msleep, this]
  · have hov : msecs + r < UINT_MOD := lt_of_lt_of_le h hPW
    simp [msleepRem, Nat.mod_eq_of_lt hov, Nat.div_eq_of_lt h]
  · have : (msecs + r) / P ≠ 0 := by
      have := Nat.one_le_div_iff hP |>.mpr h
      omega
    simp [msleepRem, Nat.mod_eq_of_lt hov, this]

/-- Witness for C2 at `tickPeriod = 16`: `msleep(7)` yields, `msleep(40)`
delays 2 ticks; the twin with `msecs = 7, remainder = 5` yields, and with
`msecs = 40, remainder = 10` delays 3 ticks. -/
theorem C2_witness :
    (16 ≤ UINT_MOD ∧ 7 < 16 ∧ 16 ≤ 40 ∧ (0 : Nat) < 16 ∧ 7 + 5 < 16 ∧
      16 ≤ 40 + 10 ∧ 40 + 10 < UINT_MOD) ∧
    msleep 16 7 = .yield ∧ msleep 16 40 = .delay 2 ∧
    (msleepRem 16 7 5).1 = .yield ∧ (msleepRem 16 40 10).1 = .delay 3 := by
  have hW : (16 : Nat) ≤ UINT_MOD := by decide
  have h1 : (7 : Nat) < 16 := by decide
  have h2 : (16 : Nat) ≤ 40 := by decide
  have hP : (0 : Nat) < 16 := by decide
  have h3 : 7 + 5 < 16 := by decide
  have h4 : (16 : Nat) ≤ 40 + 10 := by decide
  have h5 : 40 + 10 < UINT_MOD := by decide
  refine ⟨⟨hW, h1, h2, hP, h3, h4, h5⟩, ?_, ?_, ?_, ?_⟩
  · exact (C2_msleep_subtick_yield 16 hW).1 7 h1
  · exact (C2_msleep_subtick_yield 16 hW).2.1 40 h2 hP
  · exact (C2_msleep_subtick_yield 16 hW).2.2.1 7 5 h3
  · exact (C2_msleep_subtick_yield 16 hW).2.2.2 40 10 h4 h5 hP

/-- Priority clamping at the top of `Task::start` (src/frt.h:72-76):
`if (priority >= configMAX_PRIORITIES) priority = configMAX_PRIORITIES - 1;`.
`maxPrio` is `configMAX_PRIORITIES`; the returned value is what is passed to
the kernel task-creation call. -/
def clampPriority (maxPrio p : Nat) : Nat :=
  if p ≥ maxPrio then maxPrio - 1 else p

/-- C4.  `start()` passes the kernel a priority inside `[0, maxPrio - 1]`:
requests at or above `configMAX_PRIORITIES` are clamped to
`configMAX_PRIORITIES - 1`, smaller values pass through unchanged. -/
theorem C4_priority_clamped (maxPrio : Nat) (hmax : 0 < maxPrio) :
    (∀ p, clampPriority maxPrio p ≤ maxPrio - 1) ∧
    (∀ p, maxPrio ≤ p → clampPriority maxPrio p = maxPrio - 1) ∧
    (∀ p, p < maxPrio → clampPriority maxPrio p = p) := by
  refine ⟨fun p => ?_, fun p h => ?_, fun p h => ?_⟩
  · simp only [clampPriority]
    split <;> omega
  · simp [clampPriority, h]
  · simp [clampPriority, Nat.not_le.mpr h]

/-- Witness for C4 at `configMAX_PRIORITIES = 4`: priority 9 is clamped to 3,
priority 2 passes through. -/
theorem C4_witness :
    ((0 : Nat) < 4 ∧ (4 : Nat) ≤ 9 ∧ (2 : Nat) < 4) ∧
    clampPriority 4 9 = 3 ∧ clampPriority 4 2 = 2 := by
  have h0 : (0 : Nat) < 4 := by decide
  have h1 : (4 : Nat) ≤ 9 := by decide
  have h2 : (2 : Nat) < 4 := by decide
  exact ⟨⟨h0, h1, h2⟩, (C4_priority_clamped 4 h0).2.1 9 h1,
    (C4_priority_clamped 4 h0).2.2 2 h2⟩

/-! ### Three-phase interrupt protocol

Each primitive keeps a `BaseType_t` flag (`higher_priority_task_woken`, or
`…_from_push` / `…_from_pop` on `Queue`).  The kernel's `…FromISR` calls set
the flag to `pdTRUE` (1) when the operation unblocked a higher-priority task
and leave it untouched otherwise. -/

/-- Effect of one kernel `…FromISR` call on the woken flag: set to 1 when a
higher-priority task was unblocked (`woke`), unchanged otherwise. -/
def isrWokenUpdate (flag : Nat) (woke : Bool) : Nat :=
  if woke then 1 else flag

/-- Flag value after `prepare…FromInterrupt()` (which zeroes it —
src/frt.h:131-134, 279-282, 322-325, 453-456) followed by one
`…FromInterrupt` call per element of `wakes`, where `wakes i` records
whether call `i` unblocked a higher-priority task. -/
def batchFlag (wakes : List Bool) : Nat :=
  wakes.foldl isrWokenUpdate 0

/-- Number of deferred context-switch requests issued by
`finalize…FromInterrupt()` (src/frt.h:141-146, 289-294, 332-337, 463-468):
one `yieldFromIsr()` when the flag is nonzero, none otherwise. -/
def finalizeYields (flag : Nat) : Nat :=
  if flag ≠ 0 then 1 else 0

theorem batchFlag_foldl (wakes : List Bool) :
    ∀ f : Nat, wakes.foldl isrWokenUpdate f = if wakes.any id then 1 else f := by
  induction wakes with
  | nil => intro f; simp
  | cons w ws ih =>
      intro f
      cases w <;> simp [List.foldl, isrWokenUpdate, ih]

/-- C6.  For every batch `prepare…FromInterrupt(); …FromInterrupt()*;
finalize…FromInterrupt()`: prepare zeroes the woken flag, each intervening
call may set it, and finalize issues exactly one deferred context-switch
request when some call woke a higher-priority task and zero otherwise —
never more than one per batch. -/
theorem C6_one_deferred_switch_per_batch (wakes : List Bool) :
    finalizeYields (batchFlag wakes) = (if wakes.any id then 1 else 0) ∧
    finalizeYields (batchFlag wakes) ≤ 1 := by
  have h := batchFlag_foldl wakes 0
  unfold batchFlag at *
  rw [h]
  by_cases ha : wakes.any id = true <;> simp [ha, finalizeYields]

/-- Witness for C6: a batch in which the second of three `…FromInterrupt`
calls woke a higher-priority task issues exactly one deferred switch
request; an empty batch issues none. -/
theorem C6_witness :
    finalizeYields (batchFlag [false, true, false]) = 1 ∧
    finalizeYields (batchFlag []) = 0 := by
  have h1 := (C6_one_deferred_switch_per_batch [false, true, false]).1
  have h2 := (C6_one_deferred_switch_per_batch []).1
  constructor
  · rw [h1]; decide
  · rw [h2]; decide

/-! ### Semaphore (`frt::Semaphore`, src/frt.h:388-476)

Constructed binary (`xSemaphoreCreateBinary`: count 0, maximum 1) or
counting (`xSemaphoreCreateCounting(static_cast<UBaseType_t>(-1), 0)`:
count 0, maximum `UBASE_MAX`). -/

structure SemState where
  count : Nat
  maxCount : Nat
deriving DecidableEq, Repr

/-- `Semaphore::Semaphore(bool binary)` (src/frt.h:391-412). -/
def mkSemaphore (binary : Bool) : SemState :=
  if binary then ⟨0, 1⟩ else ⟨0, UBASE_MAX⟩

/-- Kernel `xSemaphoreGive`: increments the count unless the semaphore is
already at its maximum, in which case the give fails and the count is
unchanged. -/
def xSemaphoreGive (s : SemState) : Bool × SemState :=
  if s.count < s.maxCount then (true, ⟨s.count + 1, s.maxCount⟩) else (false, s)

/-- `Semaphore::post()` (src/frt.h:448-451): `xSemaphoreGive(handle)`,
discarding the result. -/
def post (s : SemState) : SemState :=
  (xSemaphoreGive s).2

/-- `k` consecutive `post()` calls. -/
def postN : Nat → SemState → SemState
  | 0, s => s
  | k + 1, s => postN k (post s)

theorem postN_count (k : Nat) :
    ∀ c M : Nat, c ≤ M → (postN k ⟨c, M⟩).count = min (c + k) M := by
  induction k with
  | zero => intro c M h; simp [postN]; omega
  | succ n ih =>
      intro c M h
      by_cases hlt : c < M
      · have : post ⟨c, M⟩ = ⟨c + 1, M⟩ := by simp [post, xSemaphoreGive, hlt]
        rw [postN, this, ih (c + 1) M hlt]
        omega
      · have hc : c = M := by omega
        have : post ⟨c, M⟩ = ⟨c, M⟩ := by simp [post, xSemaphoreGive, hlt]
        rw [postN, this, ih c M h]
        omega

theorem postN_maxCount (k : Nat) : ∀ s, (postN k s).maxCount = s.maxCount := by
  induction k with
  | zero => intro s; rfl
  | succ n ih =>
      intro s
      rw [postN, ih]
      unfold post xSemaphoreGive
      by_cases h : s.count < s.maxCount <;> simp [h]

/-- C7.  A binary-mode `Signal` holds count exactly 1 after any `k ≥ 1`
consecutive `post()` calls with no intervening `wait()` (saturation); a
counting-mode `Signal` holds count exactly `k` after the same sequence, for
every `k` up to the representable maximum. -/
theorem C7_post_saturation :
    (∀ k, 1 ≤ k → (postN k (mkSemaphore true)).count = 1) ∧
    (∀ k, k ≤ UBASE_MAX → (postN k (mkSemaphore false)).count = k) := by
  constructor
  · intro k hk
    have h := postN_count k 0 1 (by omega)
    simpa [mkSemaphore] using h.trans (by omega)
  · intro k hk
    have hM : (0 : Nat) ≤ UBASE_MAX := Nat.zero_le _
    have h := postN_count k 0 UBASE_MAX hM
    simpa [mkSemaphore] using h.trans (by omega)

/-- Witness for C7 at `k = 3`: a binary signal saturates at 1 while a
counting signal reaches 3. -/
theorem C7_witness :
    ((1 : Nat) ≤ 3 ∧ (3 : Nat) ≤ UBASE_MAX) ∧
    (postN 3 (mkSemaphore true)).count = 1 ∧
    (postN 3 (mkSemaphore false)).count = 3 := by
  have h1 : (1 : Nat) ≤ 3 := by decide
  have h2 : (3 : Nat) ≤ UBASE_MAX := by decide
  exact ⟨⟨h1, h2⟩, C7_post_saturation.1 3 h1, C7_post_saturation.2 3 h2⟩

/-! ### Timed kernel operations

A kernel call with timeout `ticks` either completes immediately (resource
available, or `ticks = 0` so the call is a pure poll) or suspends the
caller for up to `ticks` ticks.  The suspended case's eventual outcome
depends on other contexts; it is represented by the `blocked` constructor
and resolved by an explicit `late` flag where a wrapper branches on the
call's result. -/

inductive TimedResult (σ : Type) where
  | immediate (ok : Bool) (s : σ)
  | blocked (ticks : Nat) (s : σ)
deriving DecidableEq, Repr

/-- Eventual boolean outcome of a timed kernel call: immediate calls carry
their own result; a suspended call succeeds iff the resource arrived within
the timeout (`late`). -/
def resolveOk {σ : Type} : TimedResult σ → Bool → Bool
  | .immediate ok _, _ => ok
  | .blocked _ _, late => late

/-- Kernel `ulTaskNotifyTake(pdFALSE, ticks)` on a notification counter:
if the count is nonzero it is consumed (decremented, `pdFALSE`) and the call
succeeds at once; with a zero count and zero timeout the call is a failed
poll; otherwise the caller suspends. -/
def ulTaskNotifyTake (count ticks : Nat) : TimedResult Nat :=
  if 0 < count then .immediate true (count - 1)
  else if ticks = 0 then .immediate false count
  else .blocked ticks count

/-- Kernel `xQueueSend(handle, &item, ticks)` on a queue holding `q`
(front at the head) with capacity `cap`: enqueue at the back if there is
room, fail at once on a full queue with zero timeout, otherwise suspend. -/
def xQueueSend {T : Type} (cap : Nat) (q : List T) (v : T) (ticks : Nat) :
    TimedResult (List T) :=
  if q.length < cap then .immediate true (q ++ [v])
  else if ticks = 0 then .immediate false q
  else .blocked ticks q

/-- Kernel `xQueueReceive(handle, &item, ticks)`: dequeue the front if
available (the received value rides along in the state), fail at once on an
empty queue with zero timeout, otherwise suspend. -/
def xQueueReceive {T : Type} (q : List T) (ticks : Nat) :
    TimedResult (List T × Option T) :=
  match q with
  | x :: xs => .immediate true (xs, some x)
  | [] =>
      if ticks = 0 then .immediate false ([], none)
      else .blocked ticks ([], none)

/-- Kernel `xSemaphoreTake(handle, ticks)`: take one count if available,
fail at once at zero count with zero timeout, otherwise suspend. -/
def xSemaphoreTake (s : SemState) (ticks : Nat) : TimedResult SemState :=
  if 0 < s.count then .immediate true ⟨s.count - 1, s.maxCount⟩
  else if ticks = 0 then .immediate false s
  else .blocked ticks s

/-- `Task::wait(unsigned int msecs)` (src/frt.h:183-188):
`ulTaskNotifyTake(pdFALSE, msecs / portTICK_PERIOD_MS)`. -/
def taskWaitTimed (P msecs count : Nat) : TimedResult Nat :=
  ulTaskNotifyTake count (msecs / P)

/-- `Queue::push(const T&, unsigned int msecs)` (src/frt.h:258-263):
`xQueueSend(handle, &item, msecs / portTICK_PERIOD_MS) == pdTRUE`. -/
def queuePushTimed {T : Type} (P cap : Nat) (q : List T) (v : T)
    (msecs : Nat) : TimedResult (List T) :=
  xQueueSend cap q v (msecs / P)

/-- `Queue::pop(unsigned int msecs, T&)` (src/frt.h:301-306):
`xQueueReceive(handle, &item, msecs / portTICK_PERIOD_MS) == pdTRUE`. -/
def queuePopTimed {T : Type} (P : Nat) (q : List T) (msecs : Nat) :
    TimedResult (List T × Option T) :=
  xQueueReceive q (msecs / P)

/-- `Semaphore::wait(unsigned int msecs)` (src/frt.h:427-432):
`xSemaphoreTake(handle, msecs / portTICK_PERIOD_MS) == pdTRUE`. -/
def semWaitTimed (P msecs : Nat) (s : SemState) : TimedResult SemState :=
  xSemaphoreTake s (msecs / P)

/-- C9.  Every plain timed operation — `Task::wait(msecs)`,
`Queue::push(item, msecs)`, `Queue::pop(msecs, item)`,
`Semaphore::wait(msecs)` — with `msecs` below one tick period converts the
timeout to zero ticks, hence performs an immediate non-blocking poll that
fails when nothing is available; `msleep` with the same sub-tick argument
instead degrades to a yield. -/
theorem C9_subtick_timeout_is_poll (T : Type) (P msecs : Nat)
    (h : msecs < P) :
    msecs / P = 0 ∧
    taskWaitTimed P msecs 0 = .immediate false 0 ∧
    (∀ (q : List T) (v : T) cap, cap ≤ q.length →
      queuePushTimed P cap q v msecs = .immediate false q) ∧
    queuePopTimed (T := T) P [] msecs = .immediate false ([], none) ∧
    (∀ M : Nat, semWaitTimed P msecs ⟨0, M⟩ = .immediate false ⟨0, M⟩) ∧
    msleep P msecs = .yield := by
  have hz : msecs / P = 0 := Nat.div_eq_of_lt h
  refine ⟨hz, ?_, fun q v cap hcap => ?_, ?_, fun M => ?_, ?_⟩
  · simp [taskWaitTimed, ulTaskNotifyTake, hz]
  · simp [queuePushTimed, xQueueSend, hz, Nat.not_lt.mpr hcap]
  · simp [queuePopTimed, xQueueReceive, hz]
  · simp [semWaitTimed, xSemaphoreTake, hz]
  · simp [msleep, hz]

/-- Witness for C9 at `tickPeriod = 16`, `msecs = 7`, a full one-slot queue
`[0]`, and a zero-count semaphore. -/
theorem C9_witness :
    ((7 : Nat) < 16 ∧ (1 : Nat) ≤ 1) ∧
    taskWaitTimed 16 7 0 = .immediate false 0 ∧
    queuePushTimed 16 1 [0] 5 7 = .immediate false [0] ∧
    queuePopTimed (T := Nat) 16 [] 7 = .immediate false ([], none) ∧
    semWaitTimed 16 7 ⟨0, 1⟩ = .immediate false ⟨0, 1⟩ ∧
    msleep 16 7 = .yield := by
  have h : (7 : Nat) < 16 := by decide
  have hcap : (1 : Nat) ≤ ([0] : List Nat).length := by decide
  obtain ⟨-, h1, h2, h3, h4, h5⟩ := C9_subtick_timeout_is_poll Nat 16 7 h
  exact ⟨⟨h, hcap⟩, h1, h2 [0] 5 1 hcap, h3, h4 1, h5⟩

/-! ### Remainder-tracking timed operations (C10)

Each of the four remainder variants adds the carried remainder (unsigned
wrap), converts to ticks, stores the new remainder, performs the kernel
call with that tick count, and — only on success — zeroes the remainder.
The `late` flag resolves the outcome of a suspended kernel call.  Each
wrapper returns the operation's boolean result together with the final
value of the caller's remainder accumulator. -/

/-- `Task::wait(unsigned int msecs, unsigned int& remainder)`
(src/frt.h:190-202). -/
def taskWaitRem (P msecs r count : Nat) (late : Bool) : Bool × Nat :=
  let m := (msecs + r) % UINT_MOD
  let ticks := m / P
  let rem := m % P
  if resolveOk (ulTaskNotifyTake count ticks) late then (true, 0)
  else (false, rem)

/-- `Queue::push(const T&, unsigned int msecs, unsigned int& remainder)`
(src/frt.h:265-277). -/
def queuePushRem {T : Type} (P cap : Nat) (q : List T) (v : T)
    (msecs r : Nat) (late : Bool) : Bool × Nat :=
  let m := (msecs + r) % UINT_MOD
  let ticks := m / P
  let rem := m % P
  if resolveOk (xQueueSend cap q v ticks) late then (true, 0)
  else (false, rem)

/-- `Queue::pop(unsigned int msecs, unsigned int& remainder, T&)`
(src/frt.h:308-320). -/
def queuePopRem {T : Type} (P : Nat) (q : List T) (msecs r : Nat)
    (late : Bool) : Bool × Nat :=
  let m := (msecs + r) % UINT_MOD
  let ticks := m / P
  let rem := m % P
  if resolveOk (xQueueReceive q ticks) late then (true, 0)
  else (false, rem)

/-- `Semaphore::wait(unsigned int msecs, unsigned int& remainder)`
(src/frt.h:434-446). -/
def semWaitRem (P msecs r : Nat) (s : SemState) (late : Bool) : Bool × Nat :=
  let m := (msecs + r) % UINT_MOD
  let ticks := m / P
  let rem := m % P
  if resolveOk (xSemaphoreTake s ticks) late then (true, 0)
  else (false, rem)

/-- C10.  Every remainder-tracking timed operation — `Task::wait`,
`Queue::push`, `Queue::pop`, `Semaphore::wait` with a remainder argument —
leaves the caller's accumulator at exactly 0 when it succeeds (returns
true), discarding the carried truncation error, and at
`(msecs + old remainder) % tickPeriod` when it times out (returns false). -/
theorem C10_remainder_reset_on_success (T : Type) (P msecs r : Nat)
    (hov : msecs + r < UINT_MOD) :
    (∀ count late,
      (taskWaitRem P msecs r count late).2 =
        if (taskWaitRem P msecs r count late).1 then 0
        else (msecs + r) % P) ∧
    (∀ cap (q : List T) v late,
      (queuePushRem P cap q v msecs r late).2 =
        if (queuePushRem P cap q v msecs r late).1 then 0
        else (msecs + r) % P) ∧
    (∀ (q : List T) late,
      (queuePopRem P q msecs r late).2 =
        if (queuePopRem P q msecs r late).1 then 0
        else (msecs + r) % P) ∧
    (∀ s late,
      (semWaitRem P msecs r s late).2 =
        if (semWaitRem P msecs r s late).1 then 0
        else (msecs + r) % P) := by
  have hm : (msecs + r) % UINT_MOD = msecs + r := Nat.mod_eq_of_lt hov
  refine ⟨fun count late => ?_, fun cap q v late => ?_, fun q late => ?_,
    fun s late => ?_⟩
  · unfold taskWaitRem
    rw [hm]
    by_cases hk : resolveOk (ulTaskNotifyTake count ((msecs + r) / P)) late <;>
      simp [hk]
  · unfold queuePushRem
    rw [hm]
    by_cases hk : resolveOk (xQueueSend cap q v ((msecs + r) / P)) late <;>
      simp [hk]
  · unfold queuePopRem
    rw [hm]
    by_cases hk : resolveOk (xQueueReceive q ((msecs + r) / P)) late <;>
      simp [hk]
  · unfold semWaitRem
    rw [hm]
    by_cases hk : resolveOk (xSemaphoreTake s ((msecs + r) / P)) late <;>
      simp [hk]

/-- Witness for C10 at `tickPeriod = 16`, `msecs = 25`, `remainder = 3`:
a successful pop from `[9]` zeroes the accumulator while a timed-out wait
on an empty notification leaves it at `(25 + 3) % 16 = 12`. -/
theorem C10_witness :
    (25 + 3 < UINT_MOD) ∧
    (queuePopRem 16 [9] 25 3 false).2 = 0 ∧
    (taskWaitRem 16 25 3 0 false).2 = 12 := by
  have hov : 25 + 3 < UINT_MOD := by decide
  have hpop := (C10_remainder_reset_on_success Nat 16 25 3 hov).2.2.1 [9] false
  have hwait := (C10_remainder_reset_on_success Nat 16 25 3 hov).1 0 false
  refine ⟨hov, ?_, ?_⟩
  · rw [hpop]
    decide
  · rw [hwait]
    decide

/-! ### FIFO delivery (`Queue::push` / `Queue::pop`, src/frt.h:253-256,
296-299)

The blocking forms forward to the kernel's bounded FIFO with an infinite
timeout.  A sequence of completed operations is replayed in completion
order; a push that would exceed the capacity, or a pop on an empty queue,
would suspend its caller and is therefore not a completed sequence (the
executor returns `none`). -/

inductive QueueOp (T : Type) where
  | push (v : T)
  | pop
deriving DecidableEq, Repr

/-- Replay a sequence of completed blocking `push`/`pop` operations on a
queue of capacity `cap`, starting from contents `q` (front at the head).
Returns the final queue contents and the values delivered by the pops, in
pop order; `none` when some operation would have suspended forever. -/
def runOps {T : Type} (cap : Nat) : List (QueueOp T) → List T →
    Option (List T × List T)
  | [], q => some (q, [])
  | .push v :: ops, q =>
      if q.length < cap then runOps cap ops (q ++ [v])
      else none
  | .pop :: ops, q =>
      match q with
      | [] => none
      | x :: xs =>
          match runOps cap ops xs with
          | some (qf, out) => some (qf, x :: out)
          | none => none

/-- The values pushed by a sequence of operations, in push order. -/
def pushedValues {T : Type} (ops : List (QueueOp T)) : List T :=
  ops.filterMap fun op =>
    match op with
    | .push v => some v
    | .pop => none

theorem runOps_fifo {T : Type} (cap : Nat) :
    ∀ (ops : List (QueueOp T)) (q qf out : List T),
      runOps cap ops q = some (qf, out) → q ++ pushedValues ops = out ++ qf := by
  intro ops
  induction ops with
  | nil =>
      intro q qf out h
      simp only [runOps, Option.some.injEq, Prod.mk.injEq] at h
      simp [pushedValues, h.1, h.2.symm]
  | cons op ops ih =>
      intro q qf out h
      cases op with
      | push v =>
          simp only [runOps] at h
          split at h
          · have := ih (q ++ [v]) qf out h
            simpa [pushedValues, List.filterMap] using this
          · exact absurd h (by simp)
      | pop =>
          simp only [runOps] at h
          match q with
          | [] => exact absurd h (by simp)
          | x :: xs =>
              simp only at h
              cases hrec : runOps cap ops xs with
              | none => rw [hrec] at h; exact absurd h (by simp)
              | some p =>
                  obtain ⟨qf', out'⟩ := p
                  rw [hrec] at h
                  simp only [Option.some.injEq, Prod.mk.injEq] at h
                  obtain ⟨h1, h2⟩ := h
                  have := ih xs qf' out' hrec
                  subst h1
                  rw [← h2]
                  simpa [pushedValues] using this

/-- C8.  For every capacity and every completed interleaved sequence of
blocking pushes and pops (never exceeding the capacity in outstanding
items), the values delivered by `pop`, in pop order, are exactly the values
pushed, in push order — the delivered sequence followed by the residual
queue contents reconstructs the push sequence, so each delivered value is
the identical value pushed (round-trip identity); in particular a push of
`v` followed by a pop delivers exactly `v`. -/
theorem C8_fifo_roundtrip {T : Type} (cap : Nat) :
    (∀ (ops : List (QueueOp T)) (qf out : List T),
      runOps cap ops [] = some (qf, out) →
        pushedValues ops = out ++ qf ∧ (qf = [] → out = pushedValues ops)) ∧
    (∀ v : T, 0 < cap → runOps cap [.push v, .pop] [] = some ([], [v])) := by
  constructor
  · intro ops qf out h
    have := runOps_fifo cap ops [] qf out h
    simp only [List.nil_append] at this
    exact ⟨this, fun hq => by simp [this, hq]⟩
  · intro v hcap
    simp [runOps, hcap]

/-- Witness for C8 at capacity 2 with the completed sequence
push 1, push 2, pop, push 3, pop, pop: the pops deliver 1, 2, 3 in push
order, and a single push/pop round-trips the value 5. -/
theorem C8_witness :
    (runOps 2 [.push 1, .push 2, .pop, .push 3, .pop, .pop] [] =
        some (([] : List Nat), [1, 2, 3]) ∧ (0 : Nat) < 2) ∧
    pushedValues [QueueOp.push 1, .push 2, .pop, .push 3, .pop, .pop] =
      [1, 2, 3] ++ ([] : List Nat) ∧
    runOps 2 [.push 5, .pop] ([] : List Nat) = some ([], [5]) := by
  have hrun : runOps 2 [.push 1, .push 2, .pop, .push 3, .pop, .pop] [] =
      some (([] : List Nat), [1, 2, 3]) := by decide
  have hcap : (0 : Nat) < 2 := by decide
  exact ⟨⟨hrun, hcap⟩,
    ((C8_fifo_roundtrip 2).1 [.push 1, .push 2, .pop, .push 3, .pop, .pop]
      [] [1, 2, 3] hrun).1,
    (C8_fifo_roundtrip 2).2 5 hcap⟩

/-! ### `Queue::popFromInterrupt` (src/frt.h:327-330)

The source declares `bool popFromInterrupt(const T& item)`: the
out-parameter is taken by const reference (every task-context `pop`
overload takes `T&`).  `&item` then has type `const T*`, which cannot be
passed to the `void*` buffer parameter of `xQueueReceiveFromISR`, so the
dequeued value cannot be stored through `item`; the embedding below
reflects this by leaving the caller's variable at its prior value. -/

/-- Kernel `xQueueReceiveFromISR`: non-blocking; dequeues and returns the
front when the queue is non-empty (`pdTRUE`), fails on an empty queue
(`pdFALSE`). -/
def xQueueReceiveFromISR {T : Type} (q : List T) : Bool × Option T × List T :=
  match q with
  | [] => (false, none, [])
  | x :: xs => (true, some x, xs)

/-- `Queue::popFromInterrupt(const T& item)` as written: returns the kernel
success flag and the remaining queue, but — `item` being a const
reference — cannot write the dequeued value into the caller's variable,
whose (unchanged) value is returned as the third component. -/
def popFromInterrupt {T : Type} (q : List T) (item : T) :
    Bool × List T × T :=
  let r := xQueueReceiveFromISR q
  (r.1, r.2.2, item)

/-- C5 counter-evidence.  With the queue holding the single value 42 and the
caller's variable previously 0, `popFromInterrupt` reports success, the 42
is consumed from the queue, yet the caller's variable still holds 0 — the
dequeued front value was not stored into the caller-supplied item
argument. -/
theorem C5_pop_does_not_store :
    (popFromInterrupt [42] 0).1 = true ∧
    (popFromInterrupt [42] 0).2.1 = ([] : List Nat) ∧
    (popFromInterrupt [42] 0).2.2 = 0 ∧ (0 : Nat) ≠ 42 := by
  decide

/-! ### `Task::stop` / `Task::entryPoint` (src/frt.h:102-114, 205-218)

Interleaving model of one created task and one external caller of
`stop()`.  The task's context executes `entryPoint`: `running = true`;
`while (run() && !do_stop);`; `do_stop = false`; `running = false`;
`handle = nullptr`; self-delete.  The stopper executes `stop()`:
`if (!handle) return false;`, `do_stop = true`, then
`while (running) yield();`, then `return true`.  Both flags are volatile;
each statement is one atomic step, and steps of the two contexts interleave
arbitrarily. -/

/-- Program counter of the task context running `entryPoint`. -/
inductive TaskPc where
  | entry       -- about to execute `running = true`
  | loop        -- about to invoke `run()`
  | inRun       -- the user step function `run()` is executing
  | clearStop   -- loop exited; about to execute `do_stop = false`
  | clearRun    -- about to execute `running = false`
  | clearHandle -- about to null the handle and self-delete
  | dead        -- kernel task deleted
deriving DecidableEq, Repr

/-- Program counter of the context executing `stop()`. -/
inductive StopPc where
  | checkHandle -- about to test `!handle`
  | setFlag     -- about to execute `do_stop = true`
  | poll        -- about to test `running` (yielding while it holds)
  | retFalse    -- `stop()` returned false
  | retTrue     -- `stop()` returned true
deriving DecidableEq, Repr

/-- Shared state of the `Task` object plus both contexts' positions. -/
structure Config where
  running : Bool
  doStop : Bool
  handle : Bool
  taskPc : TaskPc
  stopPc : StopPc
deriving DecidableEq, Repr

/-- One atomic step of either context.  `taskRunAgain` is the loop iterating
(`run()` returned true and `do_stop` was observed false); `taskExitLoop`
covers `run()` returning false or `do_stop` observed true. -/
inductive Step : Config → Config → Prop where
  | taskBegin (r d h : Bool) (s : StopPc) :
      Step ⟨r, d, h, .entry, s⟩ ⟨true, d, h, .loop, s⟩
  | taskCallRun (r d h : Bool) (s : StopPc) :
      Step ⟨r, d, h, .loop, s⟩ ⟨r, d, h, .inRun, s⟩
  | taskRunAgain (r h : Bool) (s : StopPc) :
      Step ⟨r, false, h, .inRun, s⟩ ⟨r, false, h, .loop, s⟩
  | taskExitLoop (r d h : Bool) (s : StopPc) :
      Step ⟨r, d, h, .inRun, s⟩ ⟨r, d, h, .clearStop, s⟩
  | taskClearStop (r d h : Bool) (s : StopPc) :
      Step ⟨r, d, h, .clearStop, s⟩ ⟨r, false, h, .clearRun, s⟩
  | taskClearRun (r d h : Bool) (s : StopPc) :
      Step ⟨r, d, h, .clearRun, s⟩ ⟨false, d, h, .clearHandle, s⟩
  | taskDelete (r d h : Bool) (s : StopPc) :
      Step ⟨r, d, h, .clearHandle, s⟩ ⟨r, d, false, .dead, s⟩
  | stopNoHandle (r d : Bool) (t : TaskPc) :
      Step ⟨r, d, false, t, .checkHandle⟩ ⟨r, d, false, t, .retFalse⟩
  | stopHasHandle (r d : Bool) (t : TaskPc) :
      Step ⟨r, d, true, t, .checkHandle⟩ ⟨r, d, true, t, .setFlag⟩
  | stopSetFlag (r d h : Bool) (t : TaskPc) :
      Step ⟨r, d, h, t, .setFlag⟩ ⟨r, true, h, t, .poll⟩
  | stopPollBusy (d h : Bool) (t : TaskPc) :
      Step ⟨true, d, h, t, .poll⟩ ⟨true, d, h, t, .poll⟩
  | stopPollDone (d h : Bool) (t : TaskPc) :
      Step ⟨false, d, h, t, .poll⟩ ⟨false, d, h, t, .retTrue⟩

/-- Configuration right after a successful `start()` (handle set, task
created but not yet scheduled) with `stop()` just invoked. -/
def startedInit : Config := ⟨false, false, true, .entry, .checkHandle⟩

/-- Configuration of a unit that was never started or has already stopped
(null handle, no live task) with `stop()` just invoked. -/
def stoppedInit : Config := ⟨false, false, false, .dead, .checkHandle⟩

/-- While the task context is anywhere from the loop head to just before
`running = false`, the `running` flag is observably true. -/
def RunInv (c : Config) : Prop :=
  (c.taskPc = .loop ∨ c.taskPc = .inRun ∨ c.taskPc = .clearStop ∨
    c.taskPc = .clearRun) → c.running = true

theorem step_runInv {c c' : Config} (h : Step c c') (hc : RunInv c) :
    RunInv c' := by
  cases h <;> simp_all [RunInv]

theorem reachable_runInv {c : Config}
    (h : Relation.ReflTransGen Step startedInit c) : RunInv c := by
  induction h with
  | refl => intro h; simp [startedInit] at h
  | tail _ hstep ih => exact step_runInv hstep ih

/-- Invariant of the never-started/already-stopped scenario: no flag is ever
set, the handle stays null, and `stop()` can only be before its handle test
or returned false. -/
def IdleInv (c : Config) : Prop :=
  c.running = false ∧ c.doStop = false ∧ c.handle = false ∧
    c.taskPc = .dead ∧ (c.stopPc = .checkHandle ∨ c.stopPc = .retFalse)

theorem step_idleInv {c c' : Config} (h : Step c c') (hc : IdleInv c) :
    IdleInv c' := by
  cases h <;> simp_all [IdleInv]

/-- C3 (amended).  When the unit was never started or has already stopped
(null handle), `stop()` returns false and has no side effect (neither flag
changes, and it never returns true).  Otherwise `stop()` returns true only
at a moment when `running` is false and the run-loop body is not
executing; it can, however, return true before the run-loop has ever
executed when it is called between `start()` and the created task's first
instruction (see the counterexample), so "the run-loop has ceased
executing" does not hold in general. -/
theorem C3_stop_join :
    (∀ c : Config, Relation.ReflTransGen Step stoppedInit c →
      c.stopPc ≠ .retTrue ∧ c.running = false ∧ c.doStop = false ∧
        c.handle = false) ∧
    (∀ c c' : Config, Relation.ReflTransGen Step startedInit c →
      Step c c' → c.stopPc ≠ .retTrue → c'.stopPc = .retTrue →
      c.running = false ∧ c.taskPc ≠ .inRun ∧ c.taskPc ≠ .loop ∧
        c'.running = false ∧ c'.taskPc = c.taskPc) := by
  constructor
  · intro c h
    have hinv : IdleInv c := by
      induction h with
      | refl => simp [IdleInv, stoppedInit]
      | tail _ hstep ih => exact step_idleInv hstep ih
    obtain ⟨h1, h2, h3, -, h5⟩ := hinv
    refine ⟨?_, h1, h2, h3⟩
    rcases h5 with h5 | h5 <;> simp [h5]
  · intro c c' hre hstep hne hret
    have hinv := reachable_runInv hre
    cases hstep <;> simp_all [RunInv]

/-- C3 counterexample.  The claim "stop() ... returns true only at a point
where ... the run-loop has ceased executing" fails: from the state right
after `start()`, the stopper can test the handle, set `do_stop`, observe
`running == false` (the created task has not yet been scheduled) and return
true — after which the task begins and the run-loop body `run()` executes,
with `isRunning()` true, although `stop()` already returned true. -/
theorem C3_counterexample :
    Relation.ReflTransGen Step startedInit
      ⟨false, true, true, .entry, .retTrue⟩ ∧
    (⟨false, true, true, .entry, .retTrue⟩ : Config).stopPc = .retTrue ∧
    (⟨false, true, true, .entry, .retTrue⟩ : Config).taskPc = .entry ∧
    Relation.ReflTransGen Step ⟨false, true, true, .entry, .retTrue⟩
      ⟨true, true, true, .inRun, .retTrue⟩ ∧
    (⟨true, true, true, .inRun, .retTrue⟩ : Config).stopPc = .retTrue ∧
    (⟨true, true, true, .inRun, .retTrue⟩ : Config).taskPc = .inRun ∧
    (⟨true, true, true, .inRun, .retTrue⟩ : Config).running = true := by
  refine ⟨?_, rfl, rfl, ?_, rfl, rfl, rfl⟩
  · exact Relation.ReflTransGen.head (Step.stopHasHandle false false .entry)
      (Relation.ReflTransGen.head (Step.stopSetFlag false false true .entry)
        (Relation.ReflTransGen.head (Step.stopPollDone true true .entry)
          Relation.ReflTransGen.refl))
  · exact Relation.ReflTransGen.head (Step.taskBegin false true true .retTrue)
      (Relation.ReflTransGen.head (Step.taskCallRun true true true .retTrue)
        Relation.ReflTransGen.refl)

/-- Witness for the amended C3: the never-started scenario at its initial
configuration, and a complete join — the task runs to deletion while the
stopper polls, after which `stop()` observes `running == false` at
`taskPc = dead` and returns true. -/
theorem C3_witness :
    (stoppedInit.stopPc ≠ .retTrue ∧ stoppedInit.running = false ∧
      stoppedInit.doStop = false ∧ stoppedInit.handle = false) ∧
    ((⟨false, false, false, .dead, .poll⟩ : Config).running = false ∧
      (⟨false, false, false, .dead, .poll⟩ : Config).taskPc ≠ .inRun ∧
      (⟨false, false, false, .dead, .poll⟩ : Config).taskPc ≠ .loop ∧
      (⟨false, false, false, .dead, .retTrue⟩ : Config).running = false ∧
      (⟨false, false, false, .dead, .retTrue⟩ : Config).taskPc =
        (⟨false, false, false, .dead, .poll⟩ : Config).taskPc) := by
  have hre : Relation.ReflTransGen Step startedInit
      ⟨false, false, false, .dead, .poll⟩ :=
    Relation.ReflTransGen.head (Step.stopHasHandle false false .entry)
      (Relation.ReflTransGen.head (Step.stopSetFlag false false true .entry)
        (Relation.ReflTransGen.head (Step.taskBegin false true true .poll)
          (Relation.ReflTransGen.head (Step.taskCallRun true true true .poll)
            (Relation.ReflTransGen.head (Step.taskExitLoop true true true .poll)
              (Relation.ReflTransGen.head (Step.taskClearStop true true true .poll)
                (Relation.ReflTransGen.head (Step.taskClearRun true false true .poll)
                  (Relation.ReflTransGen.head (Step.taskDelete false false true .poll)
                    Relation.ReflTransGen.refl)))))))
  exact ⟨C3_stop_join.1 stoppedInit Relation.ReflTransGen.refl,
    C3_stop_join.2 ⟨false, false, false, .dead, .poll⟩
      ⟨false, false, false, .dead, .retTrue⟩ hre
      (Step.stopPollDone false false .dead) (by simp) rfl⟩

end Frt
